import Mathlib

/-!
Verification of the conventional-commitlint core: the commit-message
validator from src/main.rs and the git object layer from src/git.rs.

Byte sequences are modelled as lists of naturals (each element a byte
value), decoded text as lists of Unicode scalar values.  Rust functions
are translated one-to-one; a Rust function that can panic is modelled
with an Option result where a panic becomes none.
-/

namespace ConventionalCommitlint

/-- Unicode scalar values of a Lean string literal; used to write
concrete inputs in theorem statements. -/
def strS (s : String) : List Nat :=
  s.data.map Char.toNat

/-! ## Rust primitive string operations -/

/-- Rust char::is_whitespace: the Unicode White_Space code points. -/
def isRustWhitespace (c : Nat) : Bool :=
  c = 0x09 || c = 0x0A || c = 0x0B || c = 0x0C || c = 0x0D || c = 0x20 ||
  c = 0x85 || c = 0xA0 || c = 0x1680 || (0x2000 ≤ c && c ≤ 0x200A) ||
  c = 0x2028 || c = 0x2029 || c = 0x202F || c = 0x205F || c = 0x3000

/-- Rust str::trim_start. -/
def trimStart (s : List Nat) : List Nat :=
  s.dropWhile isRustWhitespace

/-- Rust str::trim_end. -/
def trimEnd (s : List Nat) : List Nat :=
  (s.reverse.dropWhile isRustWhitespace).reverse

/-- Rust str::trim. -/
def rustTrim (s : List Nat) : List Nat :=
  trimEnd (trimStart s)

/-- Rust u8/char::to_ascii_lowercase on one scalar. -/
def asciiLowerChar (c : Nat) : Nat :=
  if 65 ≤ c && c ≤ 90 then c + 32 else c

/-- Rust str::to_ascii_lowercase. -/
def asciiLower (s : List Nat) : List Nat :=
  s.map asciiLowerChar

/-- Rust str::split_inclusive at the newline scalar 10: chunks keep their
trailing newline; the last chunk may lack one; empty input gives no chunks. -/
def splitInclNl : List Nat → List (List Nat)
  | [] => []
  | b :: rest =>
    if b = 10 then [b] :: splitInclNl rest
    else
      match splitInclNl rest with
      | [] => [[b]]
      | chunk :: chunks => (b :: chunk) :: chunks

/-- The per-chunk map of Rust str::lines: strip one trailing newline and,
only if a newline was stripped, one trailing carriage return. -/
def rustLineMap (line : List Nat) : List Nat :=
  if line.getLast? = some 10 then
    let l := line.dropLast
    if l.getLast? = some 13 then l.dropLast else l
  else line

/-- Rust str::lines. -/
def rustLines (s : List Nat) : List (List Nat) :=
  (splitInclNl s).map rustLineMap

/-! ## Strict UTF-8 decoding (Rust std::str::from_utf8) -/

/-- A UTF-8 continuation byte. -/
def isCont (b : Nat) : Bool :=
  0x80 ≤ b && b ≤ 0xBF

/-- Allowed first continuation byte of a three-byte sequence
(excludes overlong forms and surrogates). -/
def cont1ok3 (b c1 : Nat) : Bool :=
  if b = 0xE0 then 0xA0 ≤ c1 && c1 ≤ 0xBF
  else if b = 0xED then 0x80 ≤ c1 && c1 ≤ 0x9F
  else isCont c1

/-- Allowed first continuation byte of a four-byte sequence
(excludes overlong forms and values above 0x10FFFF). -/
def cont1ok4 (b c1 : Nat) : Bool :=
  if b = 0xF0 then 0x90 ≤ c1 && c1 ≤ 0xBF
  else if b = 0xF4 then 0x80 ≤ c1 && c1 ≤ 0x8F
  else isCont c1

/-- Encoded length implied by a first byte, following the first-byte
table of Rust std UTF-8 validation; 0 marks an invalid first byte. -/
def byteLen (b : Nat) : Nat :=
  if b ≤ 0x7F then 1
  else if 0xC2 ≤ b && b ≤ 0xDF then 2
  else if 0xE0 ≤ b && b ≤ 0xEF then 3
  else if 0xF0 ≤ b && b ≤ 0xF4 then 4
  else 0

/-- Strict UTF-8 decoder: returns the Unicode scalar values, or none on
any malformed byte, exactly as Rust std::str::from_utf8 validates. -/
def utf8Decode : List Nat → Option (List Nat)
  | [] => some []
  | b :: rest =>
    match byteLen b, rest with
    | 1, r => (utf8Decode r).map (b :: ·)
    | 2, c1 :: r =>
      if isCont c1 then
        (utf8Decode r).map (((b - 0xC0) * 0x40 + (c1 - 0x80)) :: ·)
      else none
    | 3, c1 :: c2 :: r =>
      if cont1ok3 b c1 && isCont c2 then
        (utf8Decode r).map
          (((b - 0xE0) * 0x1000 + (c1 - 0x80) * 0x40 + (c2 - 0x80)) :: ·)
      else none
    | 4, c1 :: c2 :: c3 :: r =>
      if cont1ok4 b c1 && isCont c2 && isCont c3 then
        (utf8Decode r).map
          (((b - 0xF0) * 0x40000 + (c1 - 0x80) * 0x1000 +
            (c2 - 0x80) * 0x40 + (c3 - 0x80)) :: ·)
      else none
    | _, _ => none

/-! ## MessageError (src/main.rs) -/

/-- The violation kinds of src/main.rs; HeaderUnknownType carries the
original type string. -/
inductive MessageError where
  | NotUtf8 : MessageError
  | HeaderNotFormatted : MessageError
  | HeaderNoSpaceAfterColon : MessageError
  | HeaderTypeNotLower : MessageError
  | HeaderUnknownType : List Nat → MessageError
  | HeaderSubjectNotTrimmed : MessageError
  | HeaderSubjectMustNotASentence : MessageError
  | HeaderSubjectEmpty : MessageError
  | NoEmptyLineBeforeBody : MessageError
  | NoBangInBreakingChangeCommit : MessageError
deriving DecidableEq, Repr

/-- Discriminant of a MessageError, ignoring the payload. -/
def kindIndex : MessageError → Nat
  | .NotUtf8 => 0
  | .HeaderNotFormatted => 1
  | .HeaderNoSpaceAfterColon => 2
  | .HeaderTypeNotLower => 3
  | .HeaderUnknownType _ => 4
  | .HeaderSubjectNotTrimmed => 5
  | .HeaderSubjectMustNotASentence => 6
  | .HeaderSubjectEmpty => 7
  | .NoEmptyLineBeforeBody => 8
  | .NoBangInBreakingChangeCommit => 9

/-! ## The header-line parse (src/main.rs, check_header's inner parse) -/

/-- The character class of the type position: [A-Za-z0-9-]. -/
def isTypeChar (c : Nat) : Bool :=
  (97 ≤ c && c ≤ 122) || (65 ≤ c && c ≤ 90) || (48 ≤ c && c ≤ 57) || c = 45

/-- The inner parse of check_header: split the line into
(type, optional scope, breaking flag, raw subject) or fail. -/
def parse_header (line : List Nat) :
    Option (List Nat × Option (List Nat) × Bool × List Nat) :=
  match line.findIdx? (fun c => !(isTypeChar c)) with
  | none => none
  | some tyEnd =>
    let ty := line.take tyEnd
    let rest := line.drop tyEnd
    let scopeRest : Option (Option (List Nat) × List Nat) :=
      if rest.head? = some 40 then
        let rest1 := rest.drop 1
        match rest1.findIdx? (fun c => c = 41) with
        | none => none
        | some close => some (some (rest1.take close), rest1.drop (close + 1))
      else some (none, rest)
    match scopeRest with
    | none => none
    | some (scope, rest2) =>
      let breakingRest : Bool × List Nat :=
        if rest2.head? = some 33 then (true, rest2.drop 1) else (false, rest2)
      match breakingRest with
      | (is_breaking, rest3) =>
        if rest3.head? = some 58 then some (ty, scope, is_breaking, rest3.drop 1)
        else none

/-- The fixed set of known commit types of check_header. -/
def knownTypes : List (List Nat) :=
  [strS "build", strS "chore", strS "ci", strS "docs", strS "feat",
   strS "fix", strS "perf", strS "refactor", strS "revert", strS "style",
   strS "test"]

/-- The checks check_header applies to a successfully parsed type. -/
def type_errors (ty : List Nat) : List MessageError :=
  let tyLower := asciiLower ty
  (if tyLower ≠ ty then [MessageError.HeaderTypeNotLower] else []) ++
  (if tyLower ∈ knownTypes then [] else [MessageError.HeaderUnknownType ty])

/-- The space-after-colon handling of check_header: empty subject is left
alone, a leading space is stripped, otherwise HeaderNoSpaceAfterColon is
emitted and the subject kept unstripped. -/
def fix_subject (subject : List Nat) : List MessageError × List Nat :=
  if subject = [] then ([], subject)
  else if subject.head? = some 32 then ([], subject.drop 1)
  else ([MessageError.HeaderNoSpaceAfterColon], subject)

/-- The subject-content checks at the end of check_header: trim, flag a
changed trim, lowercase, flag sentence-like and empty subjects. -/
def subject_checks (subject : List Nat) : List MessageError :=
  let trimmed := rustTrim subject
  let lowered := asciiLower trimmed
  (if trimmed ≠ subject then [MessageError.HeaderSubjectNotTrimmed] else []) ++
  (if lowered.getLast? = some 46 || (strS "i ").isPrefixOf lowered ||
      (strS "we ").isPrefixOf lowered || (strS "you ").isPrefixOf lowered
   then [MessageError.HeaderSubjectMustNotASentence] else []) ++
  (if lowered = [] then [MessageError.HeaderSubjectEmpty] else [])

/-- check_header of src/main.rs: the accumulated errors (in push order)
and the breaking flag when the line parsed. -/
def check_header (line : List Nat) : List MessageError × Option Bool :=
  match parse_header line with
  | some (ty, _scope, is_breaking, subj) =>
    let fixed := fix_subject subj
    (type_errors ty ++ fixed.1 ++ subject_checks fixed.2, some is_breaking)
  | none =>
    ([MessageError.HeaderNotFormatted] ++ subject_checks line, none)

/-! ## check_commit_message (src/main.rs) -/

/-- The fixed auto-generated prefixes exempt from validation. -/
def autoPrefixes : List (List Nat) :=
  [strS "Merge branch ", strS "Merge branches ",
   strS "Merge remote-tracking branch ", strS "Merge remote-tracking branches ",
   strS "Merge tag ", strS "Merge tags ", strS "Merge commit ",
   strS "Merge commits ", strS "Merge HEAD ",
   strS "Revert \"",
   strS "Merge pull request #"]

/-- The footer test of check_commit_message: after trimming leading
whitespace the line starts with BREAKING CHANGE or BREAKING-CHANGE. -/
def is_breaking_footer (line : List Nat) : Bool :=
  let trimmed := trimStart line
  (strS "BREAKING CHANGE").isPrefixOf trimmed ||
  (strS "BREAKING-CHANGE").isPrefixOf trimmed

/-- The line-level part of check_commit_message, after UTF-8 decoding.
Indexing lines[0] on an empty line list is a Rust panic, modelled as
none. -/
def check_lines (title : List Nat) : Option (List MessageError) :=
  match rustLines title with
  | [] => none
  | l0 :: restL =>
    let header := check_header l0
    match restL with
    | [] => some header.1
    | l1 :: messageLines =>
      some (header.1 ++
        (if l1 ≠ [] then [MessageError.NoEmptyLineBeforeBody] else []) ++
        (match header.2 with
         | some b =>
           if messageLines.any is_breaking_footer && !b then
             [MessageError.NoBangInBreakingChangeCommit]
           else []
         | none => []))

/-- check_commit_message of src/main.rs over the raw message bytes;
none models a panic. -/
def check_commit_message (title : List Nat) : Option (List MessageError) :=
  if autoPrefixes.any (fun p => p.isPrefixOf title) then some []
  else
    match utf8Decode title with
    | none => some [MessageError.NotUtf8]
    | some s => check_lines s

/-- UTF-8 encoding of one Unicode scalar value. -/
def utf8EncodeScalar (c : Nat) : List Nat :=
  if c < 0x80 then [c]
  else if c < 0x800 then [0xC0 + c / 0x40, 0x80 + c % 0x40]
  else if c < 0x10000 then
    [0xE0 + c / 0x1000, 0x80 + c / 0x40 % 0x40, 0x80 + c % 0x40]
  else
    [0xF0 + c / 0x40000, 0x80 + c / 0x1000 % 0x40, 0x80 + c / 0x40 % 0x40,
     0x80 + c % 0x40]

/-- UTF-8 encoding of a list of scalar values. -/
def utf8Encode : List Nat → List Nat
  | [] => []
  | c :: r => utf8EncodeScalar c ++ utf8Encode r

/-- UTF-8 bytes of a Lean string literal; used to write concrete byte
inputs in theorem statements. -/
def strB (s : String) : List Nat :=
  utf8Encode (strS s)

/-! ## ObjectHash (src/git.rs) -/

/-- The error type of the hex crate used by ObjectHash::from_hex. -/
inductive FromHexError where
  | InvalidHexCharacter : Nat → Nat → FromHexError
  | OddLength : FromHexError
  | InvalidStringLength : FromHexError
deriving DecidableEq, Repr

/-- The hex crate's digit value function: A-F, a-f, 0-9. -/
def hexVal (c : Nat) : Option Nat :=
  if 65 ≤ c && c ≤ 70 then some (c - 55)
  else if 97 ≤ c && c ≤ 102 then some (c - 87)
  else if 48 ≤ c && c ≤ 57 then some (c - 48)
  else none

/-- The pair-decoding loop of hex::decode_to_slice, tracking the input
index for error reporting. -/
def decodePairsFrom (idx : Nat) : List Nat → Except FromHexError (List Nat)
  | [] => .ok []
  | [_] => .error .OddLength
  | c1 :: c2 :: rest =>
    match hexVal c1 with
    | none => .error (.InvalidHexCharacter c1 idx)
    | some h =>
      match hexVal c2 with
      | none => .error (.InvalidHexCharacter c2 (idx + 1))
      | some l => (decodePairsFrom (idx + 2) rest).map (fun r => (h * 16 + l) :: r)

/-- ObjectHash::from_hex: exactly 40 hex digits decode to the 20 hash
bytes; a wrong length is InvalidStringLength. -/
def from_hex (s : List Nat) : Except FromHexError (List Nat) :=
  if s.length ≠ 40 then .error .InvalidStringLength
  else decodePairsFrom 0 s

/-- A lowercase hex digit scalar: 0-9 or a-f. -/
def isLowerHexDigit (c : Nat) : Bool :=
  (48 ≤ c && c ≤ 57) || (97 ≤ c && c ≤ 102)

/-- Lowercase hex digit of a value below 16. -/
def hexDigitLower (n : Nat) : Nat :=
  if n < 10 then 48 + n else 87 + n

/-- The Display implementation of ObjectHash: lowercase hex of the 20
hash bytes. -/
def to_hex_string : List Nat → List Nat
  | [] => []
  | b :: rest => hexDigitLower (b / 16) :: hexDigitLower (b % 16) :: to_hex_string rest

/-! ## GitRepository::get_commits (src/git.rs) -/

/-- Rust slice split at a separator byte: always at least one part, with
empty parts kept. -/
def splitByte (sep : Nat) : List Nat → List (List Nat)
  | [] => [[]]
  | b :: rest =>
    if b = sep then [] :: splitByte sep rest
    else
      match splitByte sep rest with
      | [] => [[b]]
      | p :: ps => (b :: p) :: ps

/-- strip_suffix of a trailing carriage return, keeping the input when
absent. -/
def stripCr (l : List Nat) : List Nat :=
  if l.getLast? = some 13 then l.dropLast else l

/-- The pure core of GitRepository::get_commits, applied to the external
call's success flag and raw stdout bytes. -/
def get_commits_pure (success : Bool) (stdout : List Nat) : List (List Nat) :=
  if !success || stdout.length < 40 then []
  else
    (((splitByte 10 stdout).map stripCr).filter (fun x => x ≠ [])).filterMap
      (fun x => (from_hex x).toOption)

/-! ## CommitObject::parse (src/git.rs) -/

/-- The commit object: ordered header pairs and the raw message bytes. -/
structure CommitObject where
  header : List (List Nat × List Nat)
  message : List Nat
deriving DecidableEq, Repr

/-- try_split of CommitObject::parse: split at the first occurrence of a
byte, dropping it; none when absent. -/
def try_split (source : List Nat) (find : Nat) : Option (List Nat × List Nat) :=
  match source with
  | [] => none
  | b :: rest =>
    if b = find then some ([], rest)
    else
      match try_split rest find with
      | none => none
      | some (bef, aft) => some (b :: bef, aft)

/-- The inner while loop of CommitObject::parse folding continuation
lines into the current header value.  The loop consumes at least one
byte per iteration, so a fuel of the source length plus one is never
exhausted; running out of fuel is modelled as none. -/
def parseConts (fuel : Nat) (value source : List Nat) :
    Option (List Nat × List Nat) :=
  match fuel with
  | 0 => none
  | fuel + 1 =>
    if source.head? = some 32 then
      match try_split source 10 with
      | none => none
      | some (line, rest) => parseConts fuel (value ++ 10 :: line.drop 1) rest
    else some (value, source)

/-- The outer loop of CommitObject::parse: read header lines until the
blank line, splitting each at its first space and folding continuation
lines; the remainder is the message.  Fuel as in parseConts. -/
def parseLoop (fuel : Nat) (source : List Nat)
    (acc : List (List Nat × List Nat)) : Option CommitObject :=
  match fuel with
  | 0 => none
  | fuel + 1 =>
    match try_split source 10 with
    | none => none
    | some (line, rest) =>
      if line = [] then some ⟨acc.reverse, rest⟩
      else
        match try_split line 32 with
        | none => none
        | some (name, value) =>
          match parseConts (rest.length + 1) value rest with
          | none => none
          | some (value2, rest2) => parseLoop fuel rest2 ((name, value2) :: acc)

/-- CommitObject::parse of src/git.rs. -/
def CommitObject.parse (source : List Nat) : Option CommitObject :=
  parseLoop (source.length + 1) source []

/-- The pure core of GitRepository::get_commit: a failed external call
is none, otherwise the stdout bytes are decoded by CommitObject::parse. -/
def get_commit_pure (success : Bool) (stdout : List Nat) : Option CommitObject :=
  if !success then none else CommitObject.parse stdout

/-! ## The commit-object wire format

Modelled from the spec: the textual commit-object serialization
(spec sections 4.3 and 6) — a block of name-space-value header lines
whose values' embedded newlines appear as continuation lines prefixed
with one space, one blank line, then the message body verbatim.  It is
the well-formedness yardstick against which CommitObject::parse is
compared. -/

/-- A header value as serialized: each embedded newline is followed by
the single space opening a continuation line. -/
def replNl : List Nat → List Nat
  | [] => []
  | b :: rest => (if b = 10 then [10, 32] else [b]) ++ replNl rest

/-- One serialized header line: name, space, folded value, newline. -/
def serializeHeader (h : List Nat × List Nat) : List Nat :=
  h.1 ++ 32 :: (replNl h.2 ++ [10])

/-- The serialized header block. -/
def serializeHeaders : List (List Nat × List Nat) → List Nat
  | [] => []
  | h :: rest => serializeHeader h ++ serializeHeaders rest

/-- The full serialized commit object: header block, blank line,
message. -/
def serializeCommit (c : CommitObject) : List Nat :=
  serializeHeaders c.header ++ 10 :: c.message

/-! ## Helper lemmas -/

theorem splitInclNl_ne_nil (b : Nat) (r : List Nat) : splitInclNl (b :: r) ≠ [] := by
  simp only [splitInclNl]
  split
  · simp
  · split <;> simp

theorem utf8Decode_cons_ne_nil {b : Nat} {rest s : List Nat}
    (h : utf8Decode (b :: rest) = some s) : s ≠ [] := by
  rw [utf8Decode.eq_def] at h
  repeat' split at h
  all_goals
    first
    | exact Option.noConfusion h
    | exact absurd (by assumption : b :: rest = ([] : List Nat)) (by simp)
    | (obtain ⟨t, ht, hc⟩ := Option.map_eq_some'.mp h
       subst hc
       simp)

theorem check_lines_isSome (s : List Nat) (hs : s ≠ []) :
    ∃ errs, check_lines s = some errs := by
  match s, hs with
  | b :: r, _ =>
    unfold check_lines rustLines
    cases h : splitInclNl (b :: r) with
    | nil => exact absurd h (splitInclNl_ne_nil b r)
    | cons c cs =>
      simp only [List.map_cons]
      cases cs with
      | nil => exact ⟨_, rfl⟩
      | cons d ds => exact ⟨_, rfl⟩

theorem if_singleton_sublist {α : Type} (c : Prop) [Decidable c] (x : α) :
    List.Sublist ((if c then [x] else [])) [x] := by
  split
  · exact List.Sublist.refl _
  · exact List.nil_sublist _

theorem type_errors_kinds (ty : List Nat) :
    List.Sublist ((type_errors ty).map kindIndex) [3, 4] := by
  unfold type_errors
  rw [List.map_append]
  have h1 : List.Sublist ((if asciiLower ty ≠ ty then
      [MessageError.HeaderTypeNotLower] else []).map kindIndex) [3] := by
    split <;> simp [kindIndex]
  have h2 : List.Sublist ((if asciiLower ty ∈ knownTypes then []
      else [MessageError.HeaderUnknownType ty]).map kindIndex) [4] := by
    split <;> simp [kindIndex]
  exact List.Sublist.append h1 h2

theorem fix_subject_kinds (subj : List Nat) :
    List.Sublist (((fix_subject subj).1).map kindIndex) [2] := by
  unfold fix_subject
  split
  · simp
  · split <;> simp [kindIndex]

theorem subject_checks_kinds (s : List Nat) :
    List.Sublist ((subject_checks s).map kindIndex) [5, 6, 7] := by
  unfold subject_checks
  rw [List.map_append, List.map_append]
  have h5 : (5 :: [6, 7] : List Nat) = [5] ++ [6] ++ [7] := rfl
  rw [h5]
  apply List.Sublist.append
  apply List.Sublist.append
  · split <;> simp [kindIndex]
  · split <;> simp [kindIndex]
  · split <;> simp [kindIndex]

theorem check_header_kinds (line : List Nat) :
    List.Sublist (((check_header line).1).map kindIndex) [3, 4, 2, 1, 5, 6, 7] := by
  unfold check_header
  split
  · rename_i ty sc br subj heq
    refine List.Sublist.trans ?_ (by decide :
      List.Sublist (([3, 4] ++ [2] ++ [5, 6, 7] : List Nat)) [3, 4, 2, 1, 5, 6, 7])
    simp only [List.map_append]
    exact List.Sublist.append
      (List.Sublist.append (type_errors_kinds ty) (fix_subject_kinds subj))
      (subject_checks_kinds _)
  · refine List.Sublist.trans ?_ (by decide :
      List.Sublist (([1] ++ [5, 6, 7] : List Nat)) [3, 4, 2, 1, 5, 6, 7])
    simp only [List.map_append]
    exact List.Sublist.append (by simp [kindIndex]) (subject_checks_kinds _)

theorem check_lines_kinds {s : List Nat} {errs : List MessageError}
    (h : check_lines s = some errs) :
    List.Sublist (errs.map kindIndex) [3, 4, 2, 1, 5, 6, 7, 8, 9] := by
  unfold check_lines at h
  cases hr : rustLines s with
  | nil => rw [hr] at h; exact Option.noConfusion h
  | cons l0 restL =>
    rw [hr] at h
    cases restL with
    | nil =>
      have he : (check_header l0).1 = errs := Option.some.inj h
      subst he
      exact List.Sublist.trans (check_header_kinds l0) (by decide)
    | cons l1 messageLines =>
      have he :
          (check_header l0).1 ++
            (if l1 ≠ [] then [MessageError.NoEmptyLineBeforeBody] else []) ++
            (match (check_header l0).2 with
             | some b =>
               if messageLines.any is_breaking_footer && !b then
                 [MessageError.NoBangInBreakingChangeCommit]
               else []
             | none => []) = errs := Option.some.inj h
      subst he
      have hmaster : ([3, 4, 2, 1, 5, 6, 7, 8, 9] : List Nat) =
          [3, 4, 2, 1, 5, 6, 7] ++ [8] ++ [9] := rfl
      rw [hmaster]
      simp only [List.map_append]
      apply List.Sublist.append
      apply List.Sublist.append
      · exact check_header_kinds l0
      · split <;> simp [kindIndex]
      · split
        · split <;> simp [kindIndex]
        · simp

theorem not_mem_of_kinds {e : MessageError} {l : List MessageError} {ks : List Nat}
    (h : List.Sublist (l.map kindIndex) ks) (hk : kindIndex e ∉ ks) : e ∉ l :=
  fun hm => hk (h.subset (List.mem_map_of_mem _ hm))

theorem noBang_not_in_check_header (line : List Nat) :
    MessageError.NoBangInBreakingChangeCommit ∉ (check_header line).1 :=
  not_mem_of_kinds (check_header_kinds line) (by decide)

theorem try_split_eq {f : Nat} : ∀ {s a b : List Nat},
    try_split s f = some (a, b) → s = a ++ f :: b := by
  intro s
  induction s with
  | nil => intro a b h; exact Option.noConfusion h
  | cons c rest ih =>
    intro a b h
    unfold try_split at h
    split at h
    · rename_i hcf
      cases h
      simp [hcf]
    · rename_i hcf
      cases h2 : try_split rest f with
      | none => rw [h2] at h; exact Option.noConfusion h
      | some p =>
        obtain ⟨bef, aft⟩ := p
        rw [h2] at h
        cases h
        simp [ih h2]

theorem try_split_not_mem {f : Nat} : ∀ {s a b : List Nat},
    try_split s f = some (a, b) → f ∉ a := by
  intro s
  induction s with
  | nil => intro a b h; exact Option.noConfusion h
  | cons c rest ih =>
    intro a b h
    unfold try_split at h
    split at h
    · cases h
      simp
    · rename_i hcf
      cases h2 : try_split rest f with
      | none => rw [h2] at h; exact Option.noConfusion h
      | some p =>
        obtain ⟨bef, aft⟩ := p
        rw [h2] at h
        cases h
        intro hmem
        rcases List.mem_cons.mp hmem with rfl | hmem2
        · exact hcf rfl
        · exact ih h2 hmem2

theorem replNl_append (a b : List Nat) :
    replNl (a ++ b) = replNl a ++ replNl b := by
  induction a with
  | nil => rfl
  | cons x r ih => simp [replNl, ih, List.append_assoc]

theorem replNl_eq_self : ∀ (l : List Nat), (∀ x ∈ l, x ≠ 10) → replNl l = l := by
  intro l
  induction l with
  | nil => intro _; rfl
  | cons x r ih =>
    intro h
    have hx : x ≠ 10 := h x (by simp)
    simp only [replNl, if_neg hx]
    rw [ih (fun y hy => h y (by simp [hy]))]
    rfl

theorem parseConts_sound : ∀ (fuel : Nat) (v src v2 r2 : List Nat),
    parseConts fuel v src = some (v2, r2) →
    replNl v2 ++ 10 :: r2 = replNl v ++ 10 :: src := by
  intro fuel
  induction fuel with
  | zero => intro v src v2 r2 h; exact Option.noConfusion h
  | succ n ih =>
    intro v src v2 r2 h
    unfold parseConts at h
    split at h
    · rename_i hsp
      cases h2 : try_split src 10 with
      | none => rw [h2] at h; exact Option.noConfusion h
      | some p =>
        obtain ⟨line, rest⟩ := p
        rw [h2] at h
        have hsrc := try_split_eq h2
        have h10 := try_split_not_mem h2
        have hline : ∃ tail, line = 32 :: tail := by
          cases line with
          | nil => rw [hsrc] at hsp; simp at hsp
          | cons x t =>
            rw [hsrc] at hsp
            simp at hsp
            exact ⟨t, by rw [hsp]⟩
        obtain ⟨tail, rfl⟩ := hline
        have ihh := ih _ _ _ _ h
        have h10t : ∀ x ∈ tail, x ≠ 10 := by
          intro x hx h10x
          exact h10 (by simp [h10x ▸ hx])
        rw [ihh, hsrc]
        rw [replNl_append]
        simp [replNl, replNl_eq_self _ h10t, List.append_assoc]
    · cases h
      rfl

theorem parseLoop_sound : ∀ (fuel : Nat) (src : List Nat)
    (acc : List (List Nat × List Nat)) (obj : CommitObject),
    parseLoop fuel src acc = some obj →
    ∃ hs, obj.header = acc.reverse ++ hs ∧
      src = serializeHeaders hs ++ 10 :: obj.message := by
  intro fuel
  induction fuel with
  | zero => intro src acc obj h; exact Option.noConfusion h
  | succ n ih =>
    intro src acc obj h
    unfold parseLoop at h
    cases h1 : try_split src 10 with
    | none => rw [h1] at h; exact Option.noConfusion h
    | some p =>
      obtain ⟨line, rest⟩ := p
      rw [h1] at h
      have hsrc := try_split_eq h1
      have h10 := try_split_not_mem h1
      have hstep : (if line = [] then some (CommitObject.mk acc.reverse rest)
          else
            match try_split line 32 with
            | none => none
            | some (name, value) =>
              match parseConts (rest.length + 1) value rest with
              | none => none
              | some (value2, rest2) =>
                parseLoop n rest2 ((name, value2) :: acc)) = some obj := h
      clear h
      split at hstep
      · rename_i hl
        cases hstep
        refine ⟨[], by simp, ?_⟩
        rw [hsrc, hl]
        simp [serializeHeaders]
      · rename_i hl
        cases h2 : try_split line 32 with
        | none => rw [h2] at hstep; exact Option.noConfusion hstep
        | some q =>
          obtain ⟨name, value⟩ := q
          rw [h2] at hstep
          have hline := try_split_eq h2
          have hstep2 : (match parseConts (rest.length + 1) value rest with
              | none => none
              | some (value2, rest2) =>
                parseLoop n rest2 ((name, value2) :: acc)) = some obj := hstep
          clear hstep
          cases h3 : parseConts (rest.length + 1) value rest with
          | none => rw [h3] at hstep2; exact Option.noConfusion hstep2
          | some r =>
            obtain ⟨value2, rest2⟩ := r
            rw [h3] at hstep2
            have hrec : parseLoop n rest2 ((name, value2) :: acc) = some obj :=
              hstep2
            have hcs := parseConts_sound _ _ _ _ _ h3
            have hv10 : ∀ x ∈ value, x ≠ 10 := by
              intro x hx hx10
              refine h10 ?_
              rw [hline]
              simp [hx10 ▸ hx]
            rw [replNl_eq_self _ hv10] at hcs
            obtain ⟨hs, hh, hr2⟩ := ih _ _ _ hrec
            refine ⟨(name, value2) :: hs, ?_, ?_⟩
            · rw [hh]; simp
            · rw [hsrc, hline, serializeHeaders, serializeHeader]
              simp only [List.append_assoc, List.cons_append, List.nil_append,
                List.singleton_append]
              rw [← hr2, hcs]

theorem except_toOption_eq_ok {ε α : Type} (e : Except ε α) (a : α) :
    e.toOption = some a ↔ e = .ok a := by
  cases e <;> simp [Except.toOption]

/-! ## Hex lemmas -/

theorem to_hex_length : ∀ bs : List Nat, (to_hex_string bs).length = 2 * bs.length := by
  intro bs
  induction bs with
  | nil => rfl
  | cons b r ih =>
    simp only [to_hex_string, List.length_cons, ih]
    omega

theorem hexVal_encode : ∀ n, n < 16 → hexVal (hexDigitLower n) = some n := by decide

theorem decodePairs_encode : ∀ (bs : List Nat) (idx : Nat), (∀ b ∈ bs, b < 256) →
    decodePairsFrom idx (to_hex_string bs) = .ok bs := by
  intro bs
  induction bs with
  | nil => intro idx _; rfl
  | cons b r ih =>
    intro idx h
    have hb : b < 256 := h b (by simp)
    have hd : b / 16 < 16 := by omega
    have hm : b % 16 < 16 := by omega
    show decodePairsFrom idx
      (hexDigitLower (b / 16) :: hexDigitLower (b % 16) :: to_hex_string r) = _
    unfold decodePairsFrom
    rw [hexVal_encode _ hd, hexVal_encode _ hm,
      ih (idx + 2) (fun x hx => h x (by simp [hx]))]
    have hbe : b / 16 * 16 + b % 16 = b := by omega
    simp [Except.map, hbe]

theorem isLowerHex_lt (c : Nat) (h : isLowerHexDigit c = true) : c < 256 := by
  simp [isLowerHexDigit] at h
  rcases h with h | h <;> omega

set_option maxRecDepth 8192 in
theorem digitRT : ∀ c, c < 256 → isLowerHexDigit c = true →
    hexVal c ≠ none ∧ hexDigitLower ((hexVal c).getD 0) = c ∧
      (hexVal c).getD 0 < 16 := by decide

theorem decodePairs_roundtrip : ∀ (s : List Nat) (idx : Nat),
    (∀ c ∈ s, isLowerHexDigit c = true) → s.length % 2 = 0 →
    ∃ bs, decodePairsFrom idx s = .ok bs ∧ to_hex_string bs = s
  | [], _, _, _ => ⟨[], rfl, rfl⟩
  | [c], _, _, hl => by simp at hl
  | c1 :: c2 :: r, idx, hall, hl => by
    have hc1 : isLowerHexDigit c1 = true := hall c1 (by simp)
    have hc2 : isLowerHexDigit c2 = true := hall c2 (by simp)
    have h1 := digitRT c1 (isLowerHex_lt c1 hc1) hc1
    have h2 := digitRT c2 (isLowerHex_lt c2 hc2) hc2
    obtain ⟨v1, hv1⟩ := Option.ne_none_iff_exists'.mp h1.1
    obtain ⟨v2, hv2⟩ := Option.ne_none_iff_exists'.mp h2.1
    rw [hv1] at h1
    rw [hv2] at h2
    simp only [Option.getD_some] at h1 h2
    have hr : r.length % 2 = 0 := by simp at hl; omega
    obtain ⟨bs, hok, henc⟩ := decodePairs_roundtrip r (idx + 2)
      (fun c hc => hall c (by simp [hc])) hr
    refine ⟨(v1 * 16 + v2) :: bs, ?_, ?_⟩
    · unfold decodePairsFrom
      rw [hv1, hv2, hok]
      rfl
    · show hexDigitLower ((v1 * 16 + v2) / 16) ::
        hexDigitLower ((v1 * 16 + v2) % 16) :: to_hex_string bs = c1 :: c2 :: r
      have e1 : (v1 * 16 + v2) / 16 = v1 := by omega
      have e2 : (v1 * 16 + v2) % 16 = v2 := by omega
      rw [e1, e2, h1.2.1, h2.2.1, henc]

theorem decodePairs_bad : ∀ (s : List Nat) (idx : Nat),
    s.length % 2 = 0 → (∃ c ∈ s, hexVal c = none) →
    ∃ ch i, decodePairsFrom idx s = .error (.InvalidHexCharacter ch i)
  | [], _, _, hex => by simp at hex
  | [c], _, hl, _ => by simp at hl
  | c1 :: c2 :: r, idx, hl, hex => by
    cases hv1 : hexVal c1 with
    | none => exact ⟨c1, idx, by simp [decodePairsFrom, hv1]⟩
    | some v1 =>
      cases hv2 : hexVal c2 with
      | none => exact ⟨c2, idx + 1, by simp [decodePairsFrom, hv1, hv2]⟩
      | some v2 =>
        have hrex : ∃ c ∈ r, hexVal c = none := by
          rcases hex with ⟨c, hc, hcn⟩
          simp only [List.mem_cons] at hc
          rcases hc with rfl | rfl | hc
          · rw [hv1] at hcn; exact Option.noConfusion hcn
          · rw [hv2] at hcn; exact Option.noConfusion hcn
          · exact ⟨c, hc, hcn⟩
        have hr : r.length % 2 = 0 := by simp at hl; omega
        obtain ⟨ch, i, herr⟩ := decodePairs_bad r (idx + 2) hr hrex
        exact ⟨ch, i, by simp [decodePairsFrom, hv1, hv2, herr, Except.map]⟩

theorem isPrefixOf_append_self : ∀ (p rest : List Nat),
    p.isPrefixOf (p ++ rest) = true := by
  intro p
  induction p with
  | nil => intro rest; simp [List.isPrefixOf]
  | cons a t ih => intro rest; simp [List.isPrefixOf, ih]

theorem noSpace_not_in_type_errors (ty : List Nat) :
    MessageError.HeaderNoSpaceAfterColon ∉ type_errors ty :=
  not_mem_of_kinds (type_errors_kinds ty) (by decide)

theorem noSpace_not_in_subject_checks (s : List Nat) :
    MessageError.HeaderNoSpaceAfterColon ∉ subject_checks s :=
  not_mem_of_kinds (subject_checks_kinds s) (by decide)

theorem noBang_skip_of_flag_none :
    ∀ (s : List Nat) (errs : List MessageError) (l0 : List Nat)
      (rest : List (List Nat)),
      check_lines s = some errs → rustLines s = l0 :: rest →
      (check_header l0).2 = none →
      MessageError.NoBangInBreakingChangeCommit ∉ errs := by
  intro s errs l0 rest h hr hflag
  unfold check_lines at h
  rw [hr] at h
  have hne := noBang_not_in_check_header l0
  cases rest with
  | nil =>
    have h2 : (check_header l0).1 = errs := Option.some.inj h
    subst h2
    exact hne
  | cons l1 ml =>
    have h2 : (check_header l0).1 ++
        (if l1 ≠ [] then [MessageError.NoEmptyLineBeforeBody] else []) ++
        (match (check_header l0).2 with
         | some b =>
           if ml.any is_breaking_footer && !b then
             [MessageError.NoBangInBreakingChangeCommit]
           else []
         | none => []) = errs := Option.some.inj h
    rw [hflag] at h2
    have h3 : (check_header l0).1 ++
        (if l1 ≠ [] then [MessageError.NoEmptyLineBeforeBody] else []) ++
        ([] : List MessageError) = errs := h2
    subst h3
    intro hmem
    rw [List.append_nil] at hmem
    rcases List.mem_append.mp hmem with hm | hm
    · exact hne hm
    · revert hm
      split <;> simp

/-! ## Sanity theorems: the test corpus of src/main.rs -/

theorem rust_test_corpus :
    check_commit_message (strB "feat: Test commit") = some [] ∧
    check_commit_message (strB "feat(scope): Test commit") = some [] ∧
    check_commit_message (strB "feat(scope)!: Test commit") = some [] ∧
    check_commit_message
      (strB "feat(scope)!: Test commit\n\nBREAKING CHANGES: breaking") = some [] ∧
    check_commit_message [0xFF] = some [MessageError.NotUtf8] ∧
    check_commit_message (strB "Message Only") =
      some [MessageError.HeaderNotFormatted] ∧
    check_commit_message (strB "feat(not closed scope") =
      some [MessageError.HeaderNotFormatted] ∧
    check_commit_message (strB "feat:no space after colon") =
      some [MessageError.HeaderNoSpaceAfterColon] ∧
    check_commit_message (strB "FEAT: test") =
      some [MessageError.HeaderTypeNotLower] ∧
    check_commit_message (strB "tag: Test commit") =
      some [MessageError.HeaderUnknownType (strB "tag")] ∧
    check_commit_message (strB "fix: Not trimmed ") =
      some [MessageError.HeaderSubjectNotTrimmed] ∧
    check_commit_message (strB "fix:  Not trimmed") =
      some [MessageError.HeaderSubjectNotTrimmed] ∧
    check_commit_message (strB "fix: 　Not trimmed") =
      some [MessageError.HeaderSubjectNotTrimmed] ∧
    check_commit_message (strB "fix: I fixed some bug") =
      some [MessageError.HeaderSubjectMustNotASentence] ∧
    check_commit_message (strB "fix: We fixed some bug") =
      some [MessageError.HeaderSubjectMustNotASentence] ∧
    check_commit_message (strB "fix: You cannot use that") =
      some [MessageError.HeaderSubjectMustNotASentence] ∧
    check_commit_message (strB "fix: ") = some [MessageError.HeaderSubjectEmpty] ∧
    check_commit_message (strB "fix:") = some [MessageError.HeaderSubjectEmpty] ∧
    check_commit_message (strB "feat(scope)!: Test commit\nmessage") =
      some [MessageError.NoEmptyLineBeforeBody] ∧
    check_commit_message
      (strB "feat(scope): Test commit\n\nBREAKING CHANGES: breaking") =
      some [MessageError.NoBangInBreakingChangeCommit] := by
  decide

/-! ## The claims -/

/-- Claim C1: the claim states check_commit_message is total and never
panics on any byte sequence.  The code is not: on the empty byte sequence
the indexing lines[0] panics (str::lines of an empty string yields no
lines), modelled here as a none result; on every non-empty byte sequence
the function does return normally with a list of errors. -/
theorem C1_total_except_empty_panic :
    check_commit_message [] = none ∧
    ∀ bs : List Nat, bs ≠ [] → ∃ errs, check_commit_message bs = some errs := by
  refine ⟨rfl, ?_⟩
  intro bs hbs
  unfold check_commit_message
  split
  · exact ⟨[], rfl⟩
  · cases hd : utf8Decode bs with
    | none => exact ⟨[MessageError.NotUtf8], rfl⟩
    | some s =>
      cases bs with
      | nil => exact absurd rfl hbs
      | cons b rest => exact check_lines_isSome s (utf8Decode_cons_ne_nil hd)

/-- Witness for C1: the totality part applied to a concrete non-empty
input. -/
theorem C1_witness : ∃ errs, check_commit_message (strS "x") = some errs :=
  C1_total_except_empty_panic.2 (strS "x") (by decide)

/-- Counterexample to claim C2: the line "(scope): x" has an empty
candidate type, yet it matches the implemented grammar: validation emits
HeaderUnknownType "" (not HeaderNotFormatted) and the breaking flag is
determined (some false), so the step-6 cross-check is not skipped. -/
theorem C2_counterexample_empty_type :
    check_commit_message (strS "(scope): x") =
      some [MessageError.HeaderUnknownType []] ∧
    (check_header (strS "(scope): x")).2 = some false := by
  decide

/-- Claim C2 (amended): the type position accepts zero or more characters
from [A-Za-z0-9-]; a line with an empty candidate type such as
"(scope): x" can still match the grammar, yielding HeaderUnknownType of
the empty type with the breaking flag determined.  For every first line
that does not match the zero-or-more-type grammar, validate emits
HeaderNotFormatted, applies the step-4 subject-content checks to the
entire line, and the breaking flag is absent, so the step-6 footer
cross-check is skipped. -/
theorem C2_amended_grammar :
    (∀ line, parse_header line = none →
      check_header line =
        ([MessageError.HeaderNotFormatted] ++ subject_checks line, none)) ∧
    (∀ (s : List Nat) (errs : List MessageError) (l0 : List Nat)
        (rest : List (List Nat)),
      check_lines s = some errs → rustLines s = l0 :: rest →
      (check_header l0).2 = none →
      MessageError.NoBangInBreakingChangeCommit ∉ errs) ∧
    parse_header (strS "(scope): x") =
      some ([], some (strS "scope"), false, strS " x") := by
  refine ⟨?_, noBang_skip_of_flag_none, by decide⟩
  intro line h
  unfold check_header
  rw [h]

/-- Witness for C2 (amended): the failing-grammar part applied to a
concrete non-matching line. -/
theorem C2_amended_witness :
    check_header (strS "Message Only") =
      ([MessageError.HeaderNotFormatted] ++ subject_checks (strS "Message Only"),
        none) :=
  C2_amended_grammar.1 (strS "Message Only") (by decide)

/-- Counterexample to claim C3: git-log output with a malformed middle
line ("GARBAGE") between two well-formed identifier lines does not yield
the empty sequence — the two well-formed lines are kept and the
malformed one is silently dropped, which is exactly the partial list the
claim rules out. -/
theorem C3_counterexample_partial_list :
    get_commits_pure true
        (strB "0123456789abcdef0123456789abcdef01234567\nGARBAGE\nffffffffffffffffffffffffffffffffffffffff\n") =
      [[0x01, 0x23, 0x45, 0x67, 0x89, 0xAB, 0xCD, 0xEF, 0x01, 0x23, 0x45, 0x67,
        0x89, 0xAB, 0xCD, 0xEF, 0x01, 0x23, 0x45, 0x67],
       List.replicate 20 0xFF] ∧
    get_commits_pure true
        (strB "0123456789abcdef0123456789abcdef01234567\nGARBAGE\nffffffffffffffffffffffffffffffffffffffff\n") ≠
      [] := by
  refine ⟨by decide, by decide⟩

/-- Claim C3 (amended): get_commits returns the empty sequence when the
external call fails or its whole output is shorter than one identifier;
otherwise every line of the output that parses as an identifier is kept,
and malformed lines are silently skipped, so the result is exactly the
well-formed identifier lines. -/
theorem C3_amended_soft_failure :
    (∀ stdout, get_commits_pure false stdout = []) ∧
    (∀ (success : Bool) (stdout : List Nat), stdout.length < 40 →
      get_commits_pure success stdout = []) ∧
    (∀ (stdout : List Nat) (h : List Nat), 40 ≤ stdout.length →
      (h ∈ get_commits_pure true stdout ↔
        ∃ line ∈ ((splitByte 10 stdout).map stripCr).filter (fun x => x ≠ []),
          from_hex line = .ok h)) := by
  refine ⟨?_, ?_, ?_⟩
  · intro stdout; rfl
  · intro success stdout hlt
    unfold get_commits_pure
    cases success
    · rfl
    · simp [hlt]
  · intro stdout h hge
    unfold get_commits_pure
    have hn : ¬ stdout.length < 40 := not_lt.mpr hge
    simp only [hn, Bool.not_true, Bool.false_or, decide_eq_true_eq,
      if_false, decide_False, if_neg, not_false_iff]
    rw [if_neg (by simp [hn])]
    rw [List.mem_filterMap]
    constructor
    · rintro ⟨line, hline, hok⟩
      exact ⟨line, hline, (except_toOption_eq_ok _ _).mp hok⟩
    · rintro ⟨line, hline, hok⟩
      exact ⟨line, hline, (except_toOption_eq_ok _ _).mpr hok⟩

/-- Witness for C3 (amended): the short-output part applied to a concrete
empty output. -/
theorem C3_amended_witness : get_commits_pure true [] = [] :=
  C3_amended_soft_failure.2.1 true [] (by decide)

/-- Claim C4: with the header line parsed and its breaking flag false, a
line from index 2 onward whose leading-whitespace-trimmed form starts
with BREAKING CHANGE or BREAKING-CHANGE makes validate emit
NoBangInBreakingChangeCommit; and when the header failed to parse, the
check is skipped and NoBangInBreakingChangeCommit is never emitted. -/
theorem C4_breaking_footer_cross_check :
    (∀ (s : List Nat) (errs : List MessageError) (l0 l1 : List Nat)
        (ls : List (List Nat)),
      check_lines s = some errs → rustLines s = l0 :: l1 :: ls →
      (check_header l0).2 = some false →
      (∃ line ∈ ls, is_breaking_footer line = true) →
      MessageError.NoBangInBreakingChangeCommit ∈ errs) ∧
    (∀ (s : List Nat) (errs : List MessageError) (l0 : List Nat)
        (rest : List (List Nat)),
      check_lines s = some errs → rustLines s = l0 :: rest →
      (check_header l0).2 = none →
      MessageError.NoBangInBreakingChangeCommit ∉ errs) := by
  constructor
  · intro s errs l0 l1 ls h hr hflag hex
    unfold check_lines at h
    rw [hr] at h
    have hany : ls.any is_breaking_footer = true := List.any_eq_true.mpr hex
    have h2 : (check_header l0).1 ++
        (if l1 ≠ [] then [MessageError.NoEmptyLineBeforeBody] else []) ++
        (match (check_header l0).2 with
         | some b =>
           if ls.any is_breaking_footer && !b then
             [MessageError.NoBangInBreakingChangeCommit]
           else []
         | none => []) = errs := Option.some.inj h
    rw [hflag, hany] at h2
    have h3 : (check_header l0).1 ++
        (if l1 ≠ [] then [MessageError.NoEmptyLineBeforeBody] else []) ++
        [MessageError.NoBangInBreakingChangeCommit] = errs := h2
    subst h3
    simp
  · exact noBang_skip_of_flag_none

/-- Witness for C4: the positive part applied to the spec's concrete
example message. -/
theorem C4_witness :
    ∃ errs, check_lines
        (strS "feat(scope): Test commit\n\nBREAKING CHANGES: breaking") =
        some errs ∧
      MessageError.NoBangInBreakingChangeCommit ∈ errs :=
  ⟨[MessageError.NoBangInBreakingChangeCommit], by decide,
    C4_breaking_footer_cross_check.1
      (strS "feat(scope): Test commit\n\nBREAKING CHANGES: breaking")
      [MessageError.NoBangInBreakingChangeCommit]
      (strS "feat(scope): Test commit") [] [strS "BREAKING CHANGES: breaking"]
      (by decide) (by decide) (by decide) (by decide)⟩

/-- Claim C5: a message whose bytes start with one of the fixed
auto-generated prefixes validates to the empty violation list, whatever
the rest of the bytes are. -/
theorem C5_auto_prefix_exempt :
    ∀ p ∈ autoPrefixes, ∀ rest : List Nat,
      check_commit_message (p ++ rest) = some [] := by
  intro p hp rest
  unfold check_commit_message
  have hany : autoPrefixes.any (fun q => q.isPrefixOf (p ++ rest)) = true :=
    List.any_eq_true.mpr ⟨p, hp, isPrefixOf_append_self p rest⟩
  simp [hany]

/-- Witness for C5: the revert prefix followed by a non-UTF-8 byte. -/
theorem C5_witness : check_commit_message (strS "Revert \"" ++ [0xFF]) = some [] :=
  C5_auto_prefix_exempt (strS "Revert \"") (by decide) [0xFF]

/-- Claim C6: hex round-trips of ObjectHash: decoding an encoded hash
gives it back; encoding a decoded valid 40-character lowercase hex string
gives it back; a wrong length fails with InvalidStringLength and a
non-hex digit in a 40-byte input fails with InvalidHexCharacter. -/
theorem C6_hex_roundtrip :
    (∀ bs : List Nat, bs.length = 20 → (∀ b ∈ bs, b < 256) →
      from_hex (to_hex_string bs) = .ok bs) ∧
    (∀ s : List Nat, s.length = 40 → (∀ c ∈ s, isLowerHexDigit c = true) →
      ∃ bs, from_hex s = .ok bs ∧ to_hex_string bs = s) ∧
    (∀ s : List Nat, s.length ≠ 40 →
      from_hex s = .error .InvalidStringLength) ∧
    (∀ s : List Nat, s.length = 40 → (∃ c ∈ s, hexVal c = none) →
      ∃ ch i, from_hex s = .error (.InvalidHexCharacter ch i)) := by
  refine ⟨?_, ?_, ?_, ?_⟩
  · intro bs hlen hb
    unfold from_hex
    rw [to_hex_length, hlen, if_neg (by norm_num)]
    exact decodePairs_encode bs 0 hb
  · intro s hlen hall
    unfold from_hex
    rw [hlen, if_neg (by norm_num)]
    exact decodePairs_roundtrip s 0 hall (by simp [hlen])
  · intro s hlen
    unfold from_hex
    rw [if_pos hlen]
  · intro s hlen hex
    unfold from_hex
    rw [hlen, if_neg (by norm_num)]
    exact decodePairs_bad s 0 (by simp [hlen]) hex

/-- Witness for C6: the encode-decode round trip applied to the zero
hash. -/
theorem C6_witness :
    from_hex (to_hex_string (List.replicate 20 0)) =
      .ok (List.replicate 20 0) :=
  C6_hex_roundtrip.1 (List.replicate 20 0) (by decide) (by decide)

/-- Claim C7: CommitObject::parse succeeds only on inputs that are
byte-for-byte the serialization of the returned object — so any input
missing the blank-line terminator or containing a pre-blank-line header
line with no space fails to an outright none (two such concrete inputs
included), and get_commit forwards that none. -/
theorem C7_decode_failure_propagates :
    (∀ (source : List Nat) (obj : CommitObject),
      CommitObject.parse source = some obj → source = serializeCommit obj) ∧
    (∀ stdout : List Nat, CommitObject.parse stdout = none →
      ∀ success : Bool, get_commit_pure success stdout = none) ∧
    CommitObject.parse (strB "tree X\nparent Y") = none ∧
    CommitObject.parse (strB "treeX\n\nmsg") = none := by
  refine ⟨?_, ?_, by decide, by decide⟩
  · intro source obj h
    obtain ⟨hs, hh, hsrc⟩ := parseLoop_sound _ _ _ _ h
    simp only [List.reverse_nil, List.nil_append] at hh
    rw [hsrc, serializeCommit, hh]
  · intro stdout h success
    unfold get_commit_pure
    cases success
    · rfl
    · exact h

/-- Witness for C7: parse exactness applied to a concrete well-formed
commit object. -/
theorem C7_witness :
    strB "tree X\n\nm" =
      serializeCommit (CommitObject.mk [(strB "tree", strB "X")] (strB "m")) :=
  C7_decode_failure_propagates.1 _ _ (by decide)

/-- Claim C8: the decoder yields header pairs in insertion order and the
message verbatim on the spec's example, and folds a continuation line
into the previous value joined by a newline with the leading space
stripped. -/
theorem C8_decoder_examples :
    CommitObject.parse (strB "tree X\nparent Y\n\nSubject line") =
      some ⟨[(strB "tree", strB "X"), (strB "parent", strB "Y")],
        strB "Subject line"⟩ ∧
    CommitObject.parse (strB "parent A\n B\n\nmsg") =
      some ⟨[(strB "parent", strB "A\nB")], strB "msg"⟩ := by
  refine ⟨by decide, by decide⟩

/-- Claim C9: when the header line parses, a non-empty subject starting
with a space has that one space stripped before the subject-content
checks with no HeaderNoSpaceAfterColon; a non-empty subject not starting
with a space yields HeaderNoSpaceAfterColon and is kept unstripped; an
empty subject is exempt from the space check. -/
theorem C9_space_after_colon :
    ∀ (line ty : List Nat) (sc : Option (List Nat)) (br : Bool)
      (subj : List Nat),
      parse_header line = some (ty, sc, br, subj) →
      ((subj = [] →
         check_header line = (type_errors ty ++ subject_checks [], some br) ∧
         MessageError.HeaderNoSpaceAfterColon ∉ (check_header line).1) ∧
       (subj.head? = some 32 →
         check_header line =
           (type_errors ty ++ subject_checks (subj.drop 1), some br) ∧
         MessageError.HeaderNoSpaceAfterColon ∉ (check_header line).1) ∧
       (subj ≠ [] → subj.head? ≠ some 32 →
         check_header line =
           (type_errors ty ++ [MessageError.HeaderNoSpaceAfterColon] ++
             subject_checks subj, some br) ∧
         MessageError.HeaderNoSpaceAfterColon ∈ (check_header line).1)) := by
  intro line ty sc br subj hp
  have hch : check_header line =
      (type_errors ty ++ (fix_subject subj).1 ++
        subject_checks (fix_subject subj).2, some br) := by
    unfold check_header
    rw [hp]
  refine ⟨?_, ?_, ?_⟩
  · intro hsubj
    subst hsubj
    have h1 : check_header line =
        (type_errors ty ++ subject_checks [], some br) := by
      rw [hch]
      simp [fix_subject]
    refine ⟨h1, ?_⟩
    rw [h1]
    intro hm
    rcases List.mem_append.mp hm with hm | hm
    · exact noSpace_not_in_type_errors _ hm
    · exact noSpace_not_in_subject_checks _ hm
  · intro hsp
    cases subj with
    | nil => simp at hsp
    | cons c t =>
      simp only [List.head?_cons, Option.some.injEq] at hsp
      subst hsp
      have h1 : check_header line =
          (type_errors ty ++ subject_checks t, some br) := by
        rw [hch]
        simp [fix_subject]
      have h1d : check_header line =
          (type_errors ty ++ subject_checks ((32 :: t).drop 1), some br) := h1
      refine ⟨h1d, ?_⟩
      rw [h1]
      intro hm
      rcases List.mem_append.mp hm with hm | hm
      · exact noSpace_not_in_type_errors _ hm
      · exact noSpace_not_in_subject_checks _ hm
  · intro hne hhd
    have hfix : fix_subject subj = ([MessageError.HeaderNoSpaceAfterColon], subj) := by
      unfold fix_subject
      rw [if_neg hne, if_neg hhd]
    have h1 : check_header line =
        (type_errors ty ++ [MessageError.HeaderNoSpaceAfterColon] ++
          subject_checks subj, some br) := by
      rw [hch, hfix]
    refine ⟨h1, ?_⟩
    rw [h1]
    simp

/-- Witness for C9: the no-space case applied to the test corpus line. -/
theorem C9_witness :
    MessageError.HeaderNoSpaceAfterColon ∈
      (check_header (strS "feat:no space after colon")).1 :=
  ((C9_space_after_colon _ _ _ _ _ (by decide :
      parse_header (strS "feat:no space after colon") =
        some (strS "feat", none, false, strS "no space after colon"))).2.2
    (by decide) (by decide)).2

/-- Claim C10: any error list that check_commit_message returns has
pairwise-distinct violation kinds: no kind is ever emitted twice in one
call. -/
theorem C10_no_duplicate_kinds :
    ∀ (bs : List Nat) (errs : List MessageError),
      check_commit_message bs = some errs → (errs.map kindIndex).Nodup := by
  intro bs errs h
  unfold check_commit_message at h
  split at h
  · cases h
    simp
  · cases hd : utf8Decode bs with
    | none =>
      rw [hd] at h
      have h2 : [MessageError.NotUtf8] = errs := Option.some.inj h
      subst h2
      decide
    | some s =>
      rw [hd] at h
      have h2 : check_lines s = some errs := h
      exact (check_lines_kinds h2).nodup (by decide)

/-- Witness for C10 applied to a non-UTF-8 input. -/
theorem C10_witness : (([MessageError.NotUtf8]).map kindIndex).Nodup :=
  C10_no_duplicate_kinds [0xFF] [MessageError.NotUtf8] (by decide)

end ConventionalCommitlint
